import Mathlib

/-!
Verification of the gcontacts address-book synchronizer (src/main.rs).

Rust `String` values are modelled as lists of Unicode scalar values
(`Str := List Char`); byte-level operations (UTF-8, Base64, Quoted-Printable)
work on `List Nat` with each entry < 256.  All definitions are executable and
translated from the source; the few definitions that follow the
specification's words instead (for refinement comparisons) say so in their
doc comments.
-/

abbrev Str := List Char

/-- Converts a Lean string literal to the `List Char` model. -/
def str (s : String) : Str := s.data

/-- Unicode `White_Space` code points: the character class used by Rust's
`char::is_whitespace`, hence by `str::trim_start` and `str::split_whitespace`. -/
def isRustWhitespace (c : Char) : Bool :=
  c.toNat = 0x09 ∨ c.toNat = 0x0A ∨ c.toNat = 0x0B ∨ c.toNat = 0x0C ∨
  c.toNat = 0x0D ∨ c.toNat = 0x20 ∨ c.toNat = 0x85 ∨ c.toNat = 0xA0 ∨
  c.toNat = 0x1680 ∨ (0x2000 ≤ c.toNat ∧ c.toNat ≤ 0x200A) ∨
  c.toNat = 0x2028 ∨ c.toNat = 0x2029 ∨ c.toNat = 0x202F ∨
  c.toNat = 0x205F ∨ c.toNat = 0x3000

/-- Decimal value of a digit list (helper for modelling `str::parse::<u32>`). -/
def digitsVal (l : Str) : Nat := l.foldl (fun a c => a * 10 + (c.toNat - 48)) 0

/-- Model of Rust `number_part.parse::<u32>().unwrap_or(0)`: the parse succeeds
exactly on a non-empty all-ASCII-digit string whose value fits in `u32`
(the sign characters cannot occur here because the input starts with a digit),
and any failure is mapped to 0 by `unwrap_or(0)`. -/
def parseU32or0 (l : Str) : Nat :=
  if l ≠ [] ∧ l.all (·.isDigit) ∧ digitsVal l < 2 ^ 32 then digitsVal l else 0

/-- Embedding of `split_string_and_number` (main.rs): scan left-to-right for the
first ASCII digit; everything before it is the string part, everything from it
onward is parsed as a `u32` (0 on failure).  Rust slices at the byte index of
the digit, which is a character boundary, so the char-level split agrees. -/
def split_string_and_number : Str → Str × Nat
  | [] => ([], 0)
  | c :: cs =>
    if c.isDigit then ([], parseU32or0 (c :: cs))
    else
      let r := split_string_and_number cs
      (c :: r.1, r.2)

/-- Helper for `words`: accumulates the current word (reversed). -/
def wordsAux : Str → Str → List Str
  | [], acc => if acc = [] then [] else [acc.reverse]
  | c :: cs, acc =>
    if isRustWhitespace c then
      if acc = [] then wordsAux cs [] else acc.reverse :: wordsAux cs []
    else wordsAux cs (c :: acc)

/-- Model of Rust `str::split_whitespace`: maximal runs of non-whitespace. -/
def words (s : Str) : List Str := wordsAux s []

/-- Decimal digit to its ASCII character (defined only for 0–9). -/
def digitChar (n : Nat) : Char :=
  match n with
  | 0 => '0' | 1 => '1' | 2 => '2' | 3 => '3' | 4 => '4'
  | 5 => '5' | 6 => '6' | 7 => '7' | 8 => '8' | 9 => '9'
  | _ => '*'

/-- Fuel-driven decimal rendering of a natural number (most significant digit
first).  `natRepr` below instantiates the fuel so that it never runs out. -/
def natReprAux : Nat → Nat → Str
  | 0, _ => []
  | fuel + 1, n =>
    if n < 10 then [digitChar n]
    else natReprAux fuel (n / 10) ++ [digitChar (n % 10)]

/-- Decimal rendering of a natural number: the model of Rust `format!("{}", n)`. -/
def natRepr (n : Nat) : Str := natReprAux (n + 1) n

/-- Model of Rust `format!("{:02}", n)`: zero-padded to a minimum width of 2. -/
def pad2 (n : Nat) : Str := if n < 10 then '0' :: natRepr n else natRepr n

/-- The candidate-search loop of `generate_nickname`: try
`base ++ pad2 (counter+1)`, incrementing `counter` while the candidate is
already in the pool.  The Rust `counter` is a `u32` (the numeric part of
`split_string_and_number`), so both the increment and the `counter + 1` in
the format call are `u32` additions: they are modelled with the
two's-complement wrap `% 2^32` (release-profile semantics; a debug build
panics at the same addition, so either way the unwrapped value is never
produced).  Fuel-driven; `pickNick_spec`/`pickNick_fresh` below show that
fuel `pool.length + 1` suffices whenever the pool holds fewer than `2^32`
entries, so there the fuel-out branch is unreachable and the function agrees
with the Rust `while` loop (beyond that the Rust loop itself need not
terminate). -/
def pickNick (base : Str) (pool : List Str) : Nat → Nat → Str
  | 0, counter => base ++ pad2 ((counter + 1) % 4294967296)
  | fuel + 1, counter =>
    let cand := base ++ pad2 ((counter + 1) % 4294967296)
    if cand ∈ pool then pickNick base pool fuel ((counter + 1) % 4294967296)
    else cand

/-- Embedding of `generate_nickname` (main.rs).  The mutable
`existing_nicknames` vector becomes an explicit pool threaded through the
result: the function returns the generated nickname and the updated pool
(the Rust code pushes the returned nickname onto the vector).  The `counter`
is the Rust `u32` of `split_string_and_number` (always `< 2^32` here, see
`parseU32or0`); its arithmetic inside the search loop is the wrapped `u32`
addition of `pickNick`. -/
def generate_nickname (name : Str) (email_count : Nat) (pool : List Str) :
    Str × List Str :=
  let last_name_part := ((words name).getLast?).getD (str "Unknown")
  let bc : Str × Nat :=
    match pool with
    | [] => (last_name_part, 0)
    | p :: _ => split_string_and_number p
  if 1 < email_count then
    let nick := pickNick bc.1 pool (pool.length + 1) bc.2
    (nick, pool ++ [nick])
  else
    (bc.1, pool ++ [bc.1])

/-- `k` successive calls of `generate_nickname` with a fixed display name and
email count, starting from the empty pool: returns the list of generated
nicknames in call order together with the final pool. -/
def genN (name : Str) (email_count : Nat) : Nat → List Str × List Str
  | 0 => ([], [])
  | k + 1 =>
    let st := genN name email_count k
    let r := generate_nickname name email_count st.2
    (st.1 ++ [r.1], r.2)

/-- UTF-8 encoding of one Unicode scalar value, as a list of bytes. -/
def utf8EncodeChar (c : Char) : List Nat :=
  let n := c.toNat
  if n < 0x80 then [n]
  else if n < 0x800 then [0xC0 + n / 64, 0x80 + n % 64]
  else if n < 0x10000 then
    [0xE0 + n / 4096, 0x80 + n / 64 % 64, 0x80 + n % 64]
  else
    [0xF0 + n / 262144, 0x80 + n / 4096 % 64, 0x80 + n / 64 % 64, 0x80 + n % 64]

/-- UTF-8 encoding of a string (model of Rust `str::as_bytes`). -/
def utf8Encode : Str → List Nat
  | [] => []
  | c :: cs => utf8EncodeChar c ++ utf8Encode cs

/-- Byte length of a string: the model of Rust `str::len`. -/
def byteLen (s : Str) : Nat := (utf8Encode s).length

/-- Whether a byte is a UTF-8 continuation byte (`0x80`–`0xBF`). -/
def contByte (b : Nat) : Bool := 0x80 ≤ b ∧ b ≤ 0xBF

/-- Valid range for the second byte of a 3-byte UTF-8 sequence led by `b`
(rules out overlong encodings and surrogates, as Rust does). -/
def cont3Fst (b b2 : Nat) : Bool :=
  if b = 0xE0 then 0xA0 ≤ b2 ∧ b2 ≤ 0xBF
  else if b = 0xED then 0x80 ≤ b2 ∧ b2 ≤ 0x9F
  else contByte b2

/-- Valid range for the second byte of a 4-byte UTF-8 sequence led by `b`
(rules out overlong encodings and values beyond U+10FFFF, as Rust does). -/
def cont4Fst (b b2 : Nat) : Bool :=
  if b = 0xF0 then 0x90 ≤ b2 ∧ b2 ≤ 0xBF
  else if b = 0xF4 then 0x80 ≤ b2 ∧ b2 ≤ 0x8F
  else contByte b2

/-- Fuel-driven strict UTF-8 decoder; fuel `length + 1` always suffices since
every step consumes at least one byte. -/
def utf8decodeAux : Nat → List Nat → Option Str
  | 0, _ => none
  | _, [] => some []
  | fuel + 1, b :: rest =>
    if b < 0x80 then (utf8decodeAux fuel rest).map (Char.ofNat b :: ·)
    else if 0xC2 ≤ b ∧ b ≤ 0xDF then
      match rest with
      | b2 :: rest2 =>
        if contByte b2 then
          (utf8decodeAux fuel rest2).map
            (Char.ofNat ((b - 0xC0) * 64 + (b2 - 0x80)) :: ·)
        else none
      | [] => none
    else if 0xE0 ≤ b ∧ b ≤ 0xEF then
      match rest with
      | b2 :: b3 :: rest3 =>
        if cont3Fst b b2 ∧ contByte b3 then
          (utf8decodeAux fuel rest3).map
            (Char.ofNat ((b - 0xE0) * 4096 + (b2 - 0x80) * 64 + (b3 - 0x80)) :: ·)
        else none
      | _ => none
    else if 0xF0 ≤ b ∧ b ≤ 0xF4 then
      match rest with
      | b2 :: b3 :: b4 :: rest4 =>
        if cont4Fst b b2 ∧ contByte b3 ∧ contByte b4 then
          (utf8decodeAux fuel rest4).map
            (Char.ofNat ((b - 0xF0) * 262144 + (b2 - 0x80) * 4096 +
              (b3 - 0x80) * 64 + (b4 - 0x80)) :: ·)
        else none
      | _ => none
    else none

/-- Strict UTF-8 decoding: the model of Rust `String::from_utf8` (`none` on
any invalid byte sequence). -/
def utf8decode (l : List Nat) : Option Str := utf8decodeAux (l.length + 1) l

/-- The Unicode replacement character U+FFFD. -/
def replChar : Char := Char.ofNat 0xFFFD

/-- Fuel-driven lossy UTF-8 decoder.  Follows Rust
`String::from_utf8_lossy`: each maximal invalid subpart (the longest prefix of
a valid sequence followed by a byte that cannot continue it, or a lone invalid
byte) is replaced by one U+FFFD, and decoding resumes at the offending byte. -/
def utf8LossyAux : Nat → List Nat → Str
  | 0, _ => []
  | _, [] => []
  | fuel + 1, b :: rest =>
    if b < 0x80 then Char.ofNat b :: utf8LossyAux fuel rest
    else if 0xC2 ≤ b ∧ b ≤ 0xDF then
      match rest with
      | b2 :: rest2 =>
        if contByte b2 then
          Char.ofNat ((b - 0xC0) * 64 + (b2 - 0x80)) :: utf8LossyAux fuel rest2
        else replChar :: utf8LossyAux fuel rest
      | [] => [replChar]
    else if 0xE0 ≤ b ∧ b ≤ 0xEF then
      match rest with
      | b2 :: rest2 =>
        if cont3Fst b b2 then
          match rest2 with
          | b3 :: rest3 =>
            if contByte b3 then
              Char.ofNat ((b - 0xE0) * 4096 + (b2 - 0x80) * 64 + (b3 - 0x80)) ::
                utf8LossyAux fuel rest3
            else replChar :: utf8LossyAux fuel rest2
          | [] => [replChar]
        else replChar :: utf8LossyAux fuel rest
      | [] => [replChar]
    else if 0xF0 ≤ b ∧ b ≤ 0xF4 then
      match rest with
      | b2 :: rest2 =>
        if cont4Fst b b2 then
          match rest2 with
          | b3 :: rest3 =>
            if contByte b3 then
              match rest3 with
              | b4 :: rest4 =>
                if contByte b4 then
                  Char.ofNat ((b - 0xF0) * 262144 + (b2 - 0x80) * 4096 +
                    (b3 - 0x80) * 64 + (b4 - 0x80)) :: utf8LossyAux fuel rest4
                else replChar :: utf8LossyAux fuel rest3
              | [] => [replChar]
            else replChar :: utf8LossyAux fuel rest2
          | [] => [replChar]
        else replChar :: utf8LossyAux fuel rest
      | [] => [replChar]
    else replChar :: utf8LossyAux fuel rest

/-- Lossy UTF-8 decoding: the model of Rust `String::from_utf8_lossy`. -/
def utf8Lossy (l : List Nat) : Str := utf8LossyAux (l.length + 1) l

/-- Value of a character in the standard Base64 alphabet (`none` outside it). -/
def b64Val (c : Char) : Option Nat :=
  if 'A' ≤ c ∧ c ≤ 'Z' then some (c.toNat - 65)
  else if 'a' ≤ c ∧ c ≤ 'z' then some (c.toNat - 97 + 26)
  else if '0' ≤ c ∧ c ≤ '9' then some (c.toNat - 48 + 52)
  else if c = '+' then some 62
  else if c = '/' then some 63
  else none

/-- Base64 decoding with the `base64` crate's `STANDARD` engine semantics:
standard alphabet, canonical `=` padding required (so the length is a multiple
of 4), and non-zero trailing bits rejected.  Returns the decoded bytes. -/
def base64decode : Str → Option (List Nat)
  | [] => some []
  | a :: b :: c :: d :: rest => do
    let v1 ← b64Val a
    let v2 ← b64Val b
    if d = '=' then
      if rest ≠ [] then none
      else if c = '=' then
        if v2 % 16 = 0 then some [v1 * 4 + v2 / 16] else none
      else do
        let v3 ← b64Val c
        if v3 % 4 = 0 then some [v1 * 4 + v2 / 16, v2 % 16 * 16 + v3 / 4]
        else none
    else do
      let v3 ← b64Val c
      let v4 ← b64Val d
      let tail ← base64decode rest
      some ([v1 * 4 + v2 / 16, v2 % 16 * 16 + v3 / 4, v3 % 4 * 64 + v4] ++ tail)
  | _ => none

/-- Whether a byte is an ASCII hex digit (both cases, as accepted by the
`quoted_printable` crate's `u8::from_str_radix(_, 16)` call). -/
def isHexByte (b : Nat) : Bool :=
  (48 ≤ b ∧ b ≤ 57) ∨ (65 ≤ b ∧ b ≤ 70) ∨ (97 ≤ b ∧ b ≤ 102)

/-- Numeric value of an ASCII hex digit byte. -/
def hexVal (b : Nat) : Nat :=
  if 48 ≤ b ∧ b ≤ 57 then b - 48
  else if 65 ≤ b ∧ b ≤ 70 then b - 55
  else if 97 ≤ b ∧ b ≤ 102 then b - 87
  else 0

/-- Fuel-driven Quoted-Printable decoding in the `quoted_printable` crate's
`ParseMode::Robust`: `=` followed by two hex digits decodes to a byte, `=`
followed by a line break (CRLF or bare LF) is a soft break and is removed,
and any other `=` — including a trailing one that would start a soft break at
end of input — is handled leniently rather than rejected.  Robust mode never
fails. -/
def qpDecodeAux : Nat → List Nat → List Nat
  | 0, _ => []
  | _, [] => []
  | fuel + 1, b :: rest =>
    if b = 61 then
      match rest with
      | c1 :: c2 :: rest2 =>
        if isHexByte c1 ∧ isHexByte c2 then
          (hexVal c1 * 16 + hexVal c2) :: qpDecodeAux fuel rest2
        else if c1 = 13 ∧ c2 = 10 then qpDecodeAux fuel rest2
        else if c1 = 10 then qpDecodeAux fuel (c2 :: rest2)
        else b :: qpDecodeAux fuel rest
      | [c1] => if c1 = 10 ∨ c1 = 13 then [] else [b, c1]
      | [] => []
    else b :: qpDecodeAux fuel rest

/-- Quoted-Printable robust decoding (model of `quoted_printable::decode` with
`ParseMode::Robust` on the single-line inputs this program produces). -/
def qpDecodeRobust (l : List Nat) : List Nat := qpDecodeAux (l.length + 1) l

/-- Error outcomes of `decode_if_encoded`: a Base64 decode failure, a UTF-8
validation failure, or a byte-slice panic (see `decode_if_encoded`). -/
inductive DecErr where
  | b64
  | utf8
  | panicked
deriving DecidableEq, Repr

/-- Embedding of `decode_if_encoded` (main.rs).  The input is first
`trim_start`ed; a field starting with `=?UTF-8?B?` and ending with `?=` is
Base64-decoded and UTF-8-validated; one starting with `=?UTF-8?Q?` and ending
with `?=` has `_` replaced by spaces and is Quoted-Printable-decoded in robust
mode with lossy UTF-8 conversion; anything else is returned as trimmed.

The interior is the byte slice `&s[10..s.len()-2]`.  When both the 10-byte
marker and the 2-byte `?=` suffix match but the string is shorter than 12
bytes (only possible for the single 11-byte string where they overlap), the
Rust slice `[10..len-2]` has its start beyond its end and panics; this is
modelled by `DecErr.panicked`.  Otherwise the ASCII marker and suffix make the
byte slice coincide with dropping 10 leading and 2 trailing characters. -/
def decode_if_encoded (s0 : Str) : Except DecErr Str :=
  let s := s0.dropWhile isRustWhitespace
  if (str "=?UTF-8?B?").isPrefixOf s ∧ (str "?=").isSuffixOf s then
    if byteLen s < 12 then .error .panicked
    else
      match base64decode ((s.take (s.length - 2)).drop 10) with
      | none => .error .b64
      | some bytes =>
        match utf8decode bytes with
        | none => .error .utf8
        | some t => .ok t
  else if (str "=?UTF-8?Q?").isPrefixOf s ∧ (str "?=").isSuffixOf s then
    if byteLen s < 12 then .error .panicked
    else
      let encoded := ((s.take (s.length - 2)).drop 10).map fun c =>
        if c = '_' then ' ' else c
      .ok (utf8Lossy (qpDecodeRobust (utf8Encode encoded)))
  else .ok s

instance {ε α : Type} [DecidableEq ε] [DecidableEq α] : DecidableEq (Except ε α) :=
  fun a b =>
    match a, b with
    | .ok x, .ok y => if h : x = y then isTrue (by rw [h]) else isFalse (by simp [h])
    | .error x, .error y =>
      if h : x = y then isTrue (by rw [h]) else isFalse (by simp [h])
    | .ok _, .error _ => isFalse (by simp)
    | .error _, .ok _ => isFalse (by simp)

/-- Embedding of the `APerson` struct (main.rs): one record of the
`.addressbook` file. -/
structure APerson where
  nickname : Str
  name : Str
  email : Str
  fcc : Str
  biography : Str
deriving DecidableEq, Repr

/-- The record with all five fields empty (what `convert_line_to_aperson`
produces from an empty buffer). -/
def emptyAP : APerson := ⟨[], [], [], [], []⟩

/-- Model of Rust `str::split(c)`: splits at every occurrence of `c`; the
result always has `count c + 1` parts and empty parts are kept. -/
def splitOnChar (c : Char) : Str → List Str
  | [] => [[]]
  | x :: xs =>
    match splitOnChar c xs with
    | [] => [[]]
    | r :: rs => if x = c then [] :: r :: rs else (x :: r) :: rs

/-- Errors of the address-book parser: the explicit "Record has too many
fields" error of `convert_line_to_aperson`, or a failure inside
`decode_if_encoded` propagated by `get_decoded_apersons`. -/
inductive PErr where
  | tooManyFields
  | decode (e : DecErr)
deriving DecidableEq, Repr

/-- Embedding of `convert_line_to_aperson` together with the
`get_decoded_apersons` call it makes (main.rs): split the accumulated buffer
on tabs, fail when more than 5 fields result, otherwise decode the five
fields (missing trailing fields default to the empty string via
`fields.get(i).unwrap_or(&"")`) and build the record.  The Rust function
pushes onto a vector and clears the buffer; the embedding returns the record
and lets the caller thread the state. -/
def convert_line_to_aperson (buf : Str) : Except PErr APerson := do
  let fields := splitOnChar '\t' buf
  if fields.length > 5 then throw .tooManyFields
  else
    let nickname ← (decode_if_encoded (fields.getD 0 [])).mapError PErr.decode
    let name ← (decode_if_encoded (fields.getD 1 [])).mapError PErr.decode
    let email ← (decode_if_encoded (fields.getD 2 [])).mapError PErr.decode
    let fcc ← (decode_if_encoded (fields.getD 3 [])).mapError PErr.decode
    let biography ← (decode_if_encoded (fields.getD 4 [])).mapError PErr.decode
    pure ⟨nickname, name, email, fcc, biography⟩

/-- One iteration of the line loop of `load_addressbook_data` (main.rs),
acting on the accumulated buffer `st`: a line ending in a tab while the buffer
holds fewer than 4 tabs is appended without conversion; otherwise the buffer
is converted first unless the line starts with three spaces, and then the
buffer extended with the line is converted.  Returns the records emitted by
this step and the new buffer. -/
def stepLine (st line : Str) : Except PErr (List APerson × Str) :=
  if line.getLast? = some '\t' ∧ st.count '\t' < 4 then
    .ok ([], st ++ line)
  else if (str "   ").isPrefixOf line then do
    let p ← convert_line_to_aperson (st ++ line)
    .ok ([p], [])
  else do
    let p ← convert_line_to_aperson st
    let q ← convert_line_to_aperson (([] : Str) ++ line)
    .ok ([p, q], [])

/-- The line loop of `load_addressbook_data`: threads the buffer and the
accumulated record list through `stepLine`. -/
def runLines : List Str → Str → List APerson → Except PErr (List APerson × Str)
  | [], st, acc => .ok (acc, st)
  | l :: ls, st, acc => do
    let r ← stepLine st l
    runLines ls (r.2) (acc ++ r.1)

/-- Embedding of `load_addressbook_data` (main.rs) on the list of physical
lines of the file (as produced by `BufRead::lines`): run the line loop from an
empty buffer, then convert any non-empty leftover buffer as a final record. -/
def load_addressbook_data (ls : List Str) : Except PErr (List APerson) := do
  let r ← runLines ls [] []
  if r.2 ≠ [] then do
    let p ← convert_line_to_aperson r.2
    pure (r.1 ++ [p])
  else pure r.1

/-- One serialized record line: the five fields joined by tabs in the order
nickname/name/email/fcc/note, written verbatim (the serialization format the
specification prescribes, whose lines `main` writes one per record). -/
def serializeRecord (a : APerson) : Str :=
  a.nickname ++ '\t' :: (a.name ++ '\t' :: (a.email ++ '\t' :: (a.fcc ++ '\t' :: a.biography)))

/-- Serialization of a record sequence: one line per record. -/
def serialize (l : List APerson) : List Str := l.map serializeRecord

/-- What `load_addressbook_data` actually produces on serialized input.  The
`Option APerson` state mirrors the parser buffer: `none` when the buffer is
empty, `some r` when record `r`'s line (ending in a tab because its note is
empty) is buffered as a continuation.  With an empty buffer, a record with a
non-empty note is emitted behind a spurious all-empty record (the code
converts the empty buffer first); a record with an empty note is buffered.  A
buffered record is flushed by the next line, or at end of file. -/
def parsedWithEmpties : Option APerson → List APerson → List APerson
  | none, [] => []
  | some r, [] => [r]
  | none, r :: rest =>
    if r.biography = [] then parsedWithEmpties (some r) rest
    else emptyAP :: r :: parsedWithEmpties none rest
  | some r, r' :: rest => r :: r' :: parsedWithEmpties none rest

/-- The record for line `l`, when its conversion succeeds. -/
def forceConvert (l : Str) : APerson :=
  match convert_line_to_aperson l with
  | .ok p => p
  | .error _ => emptyAP

/-- 2·n records: an all-empty record before the record of each line (the shape
`load_addressbook_data` produces on files with no continuations). -/
def doubledRecords : List Str → List APerson
  | [] => []
  | l :: ls => emptyAP :: forceConvert l :: doubledRecords ls

/-- Opaque stand-in for the `FieldMetadata` values that the program only ever
clones, never inspects. -/
structure FieldMeta where
  raw : Nat
deriving DecidableEq, Repr

/-- Embedding of `google_people1::api::Name`.  The two honorific fields model
`honorific_prefix`/`honorific_suffix` and the phonetic ones
`phonetic_honorific_prefix`/`phonetic_honorific_suffix` (shortened here to
`_pre`/`_suf`). -/
structure GName where
  display_name : Option Str
  display_name_last_first : Option Str
  family_name : Option Str
  given_name : Option Str
  honorific_pre : Option Str
  honorific_suf : Option Str
  metadata : Option FieldMeta
  middle_name : Option Str
  phonetic_family_name : Option Str
  phonetic_full_name : Option Str
  phonetic_given_name : Option Str
  phonetic_honorific_pre : Option Str
  phonetic_honorific_suf : Option Str
  phonetic_middle_name : Option Str
  unstructured_name : Option Str
deriving DecidableEq, Repr

/-- Embedding of `google_people1::api::Nickname`. -/
structure GNickname where
  value : Option Str
  metadata : Option FieldMeta
  type_ : Option Str
deriving DecidableEq, Repr

/-- Embedding of `google_people1::api::EmailAddress`. -/
structure GEmail where
  value : Option Str
  metadata : Option FieldMeta
  type_ : Option Str
  formatted_type : Option Str
  display_name : Option Str
deriving DecidableEq, Repr

/-- Embedding of `google_people1::api::Biography`. -/
structure GBiography where
  value : Option Str
  metadata : Option FieldMeta
  content_type : Option Str
deriving DecidableEq, Repr

/-- Embedding of `google_people1::api::Organization` (only its `name` field is
read by this program). -/
structure GOrganization where
  name : Option Str
deriving DecidableEq, Repr

/-- Embedding of `google_people1::api::Person`, restricted to the sub-fields
this program reads or writes; `rest` stands for all remaining `Person`
sub-fields, which the program only ever clones as a block. -/
structure Person where
  resource_name : Option Str
  names : Option (List GName)
  nicknames : Option (List GNickname)
  email_addresses : Option (List GEmail)
  biographies : Option (List GBiography)
  organizations : Option (List GOrganization)
  rest : Nat
deriving DecidableEq, Repr

/-- Embedding of `get_gcontact_name` (main.rs): first name entry's display
name when present, with fallback to the first organization name whenever the
result so far is empty. -/
def get_gcontact_name (p : Person) : Str :=
  let gname : Str :=
    match p.names with
    | some names =>
      match names with
      | [] => []
      | n :: _ => n.display_name.getD []
    | none => []
  if gname = [] then
    match p.organizations with
    | some orgs =>
      match orgs with
      | [] => []
      | o :: _ => o.name.getD []
    | none => []
  else gname

/-- Embedding of `get_gcontact_nickname` (main.rs). -/
def get_gcontact_nickname (p : Person) : Str :=
  match p.nicknames with
  | some nicknames =>
    match nicknames with
    | [] => []
    | n :: _ => n.value.getD []
  | none => []

/-- Embedding of `get_gcontact_biography` (main.rs). -/
def get_gcontact_biography (p : Person) : Str :=
  match p.biographies with
  | some biographies =>
    match biographies with
    | [] => []
    | b :: _ => b.value.getD []
  | none => []

/-- First name entry's display-name, or empty: the reading of the
specification's "first entry of the name list's display-name field"
(`Modelled from the spec` for the refinement comparison in claim C8). -/
def first_name_display (p : Person) : Str :=
  match p.names with
  | some (n :: _) => n.display_name.getD []
  | _ => []

/-- First organization's name, or empty. -/
def first_org_name (p : Person) : Str :=
  match p.organizations with
  | some (o :: _) => o.name.getD []
  | _ => []

/-- Embedding of the `Some(person)` branch of `update_google_contacts`
(main.rs): clone the existing `Person`, then replace exactly the `nicknames`,
`names`, `email_addresses` and `biographies` fields by single-entry lists that
carry the local contact's values while preserving the existing first entry's
metadata, type tags, phonetic name fields, honorifics and the other name
sub-fields. -/
def build_updated_person (person : Person) (ap : APerson) : Person :=
  { person with
    nicknames := some [{
      value := some ap.nickname
      metadata := (person.nicknames.bind (fun n => n.head?)).bind (fun nn => nn.metadata)
      type_ := (person.nicknames.bind (fun n => n.head?)).bind (fun nn => nn.type_) }]
    names := some [{
      display_name := some ap.name
      display_name_last_first :=
        (person.names.bind (fun n => n.head?)).bind (fun nn => nn.display_name_last_first)
      family_name := (person.names.bind (fun n => n.head?)).bind (fun nn => nn.family_name)
      given_name := (person.names.bind (fun n => n.head?)).bind (fun nn => nn.given_name)
      honorific_pre := (person.names.bind (fun n => n.head?)).bind (fun nn => nn.honorific_pre)
      honorific_suf := (person.names.bind (fun n => n.head?)).bind (fun nn => nn.honorific_suf)
      metadata := (person.names.bind (fun n => n.head?)).bind (fun nn => nn.metadata)
      middle_name := (person.names.bind (fun n => n.head?)).bind (fun nn => nn.middle_name)
      phonetic_family_name :=
        (person.names.bind (fun n => n.head?)).bind (fun nn => nn.phonetic_family_name)
      phonetic_full_name :=
        (person.names.bind (fun n => n.head?)).bind (fun nn => nn.phonetic_full_name)
      phonetic_given_name :=
        (person.names.bind (fun n => n.head?)).bind (fun nn => nn.phonetic_given_name)
      phonetic_honorific_pre :=
        (person.names.bind (fun n => n.head?)).bind (fun nn => nn.phonetic_honorific_pre)
      phonetic_honorific_suf :=
        (person.names.bind (fun n => n.head?)).bind (fun nn => nn.phonetic_honorific_suf)
      phonetic_middle_name :=
        (person.names.bind (fun n => n.head?)).bind (fun nn => nn.phonetic_middle_name)
      unstructured_name :=
        (person.names.bind (fun n => n.head?)).bind (fun nn => nn.unstructured_name) }]
    email_addresses := some [{
      value := some ap.email
      metadata := (person.email_addresses.bind (fun n => n.head?)).bind (fun nn => nn.metadata)
      type_ := (person.email_addresses.bind (fun n => n.head?)).bind (fun nn => nn.type_)
      formatted_type :=
        (person.email_addresses.bind (fun n => n.head?)).bind (fun nn => nn.formatted_type)
      display_name :=
        (person.email_addresses.bind (fun n => n.head?)).bind (fun nn => nn.display_name) }]
    biographies := some [{
      value := some ap.biography
      metadata := (person.biographies.bind (fun n => n.head?)).bind (fun nn => nn.metadata)
      content_type :=
        (person.biographies.bind (fun n => n.head?)).bind (fun nn => nn.content_type) }] }

/-- Embedding of the `None` branch of `update_google_contacts` (main.rs):
build a fresh `Person` from the local contact, splitting the display name into
given/family parts on whitespace. -/
def build_new_person (ap : APerson) : Person :=
  let ws := words ap.name
  let first_name : Str := if 2 ≤ ws.length then ws.getD 0 [] else ap.name
  let last_name : Str := if 2 ≤ ws.length then (ws.getLast?).getD [] else []
  { resource_name := none
    names := some [{
      display_name := some ap.name
      display_name_last_first := none
      family_name := some last_name
      given_name := some first_name
      honorific_pre := none
      honorific_suf := none
      metadata := none
      middle_name := none
      phonetic_family_name := none
      phonetic_full_name := none
      phonetic_given_name := none
      phonetic_honorific_pre := none
      phonetic_honorific_suf := none
      phonetic_middle_name := none
      unstructured_name := none }]
    nicknames := some [{ value := some ap.nickname, metadata := none, type_ := none }]
    email_addresses := some [{
      value := some ap.email
      metadata := none
      type_ := none
      formatted_type := none
      display_name := none }]
    biographies := some [{ value := some ap.biography, metadata := none, content_type := none }]
    organizations := none
    rest := 0 }

/-- The field mask `FieldMask::from_str("nicknames,names,emailAddresses,biographies")`
that `update_google_contacts` passes to both the update and the create call,
modelled as its comma-separated component list. -/
def contact_write_field_mask : List Str :=
  splitOnChar ',' (str "nicknames,names,emailAddresses,biographies")

/-- The remote mutation issued by `update_google_contacts`. -/
inductive RemoteWrite where
  | update (resource : Str) (p : Person) (mask : List Str)
  | create (p : Person) (mask : List Str)
deriving DecidableEq, Repr

/-- Embedding of `update_google_contacts` (main.rs) up to the HTTP boundary:
build the new `Person` (clone-and-merge when an existing contact is given,
fresh otherwise), then update when it carries a resource name and create
otherwise, in both cases with `contact_write_field_mask`. -/
def update_google_contacts (gperson : Option Person) (ap : APerson) : RemoteWrite :=
  let newP := match gperson with
    | some person => build_updated_person person ap
    | none => build_new_person ap
  match newP.resource_name with
  | some rn => .update rn newP contact_write_field_mask
  | none => .create newP contact_write_field_mask

/-- The two interactive resolutions (`UpdateSource` in main.rs). -/
inductive UpdateSource where
  | FromGoogle
  | FromAddressBook
deriving DecidableEq, Repr

/-- Embedding of the adjusted-nickname computation in `main`'s common-email
loop (main.rs): strip the local nickname at its first digit with
`split_string_and_number`, and when the result equals the last whitespace
token of the local display name (`"Unknown"` when the name has no tokens),
replace it with the remote nickname. -/
def adjusted_nickname (anick aname gnick : Str) : Str :=
  let a := (split_string_and_number anick).1
  let last_name_part := ((words aname).getLast?).getD (str "Unknown")
  if a = last_name_part then gnick else a

/-- The adjusted-nickname computation as the specification words it
(`Modelled from the spec` for the refinement comparison in claim C5):
"stripping any trailing digit suffix from the local nickname", then the same
conditional replacement. -/
def adjusted_nickname_spec (anick aname gnick : Str) : Str :=
  let a := ((anick.reverse.dropWhile (·.isDigit)).reverse : Str)
  let last_name_part := ((words aname).getLast?).getD (str "Unknown")
  if a = last_name_part then gnick else a

/-- Observable effect of processing one (local, remote) pair in the
common-email loop of `main` (main.rs). -/
structure PairOutcome where
  prompted : Bool
  localChanged : Bool
  remoteChanged : Bool
deriving DecidableEq, Repr

/-- Embedding of the body of the common-email loop of `main` (main.rs): when
the display names, the adjusted nickname and the notes all agree, the pair is
skipped (`continue`) with no prompt and no mutation; otherwise one prompt is
issued and the chosen side is overwritten. -/
def processCommonPair (ap : APerson) (g : Person) (choice : UpdateSource) :
    PairOutcome :=
  let gname := get_gcontact_name g
  let gnickname := get_gcontact_nickname g
  let gbiography := get_gcontact_biography g
  let anickname := adjusted_nickname ap.nickname ap.name gnickname
  if ap.name = gname ∧ anickname = gnickname ∧ ap.biography = gbiography then
    ⟨false, false, false⟩
  else
    match choice with
    | .FromGoogle => ⟨true, true, false⟩
    | .FromAddressBook => ⟨true, false, true⟩

/-- Embedding of the write-back loop of `main` (main.rs): each contact whose
email is non-empty contributes the record
`[nickname, name, email, fcc, biography]` to the writer, in list order;
contacts with an empty email are skipped. -/
def write_addressbook_records : List APerson → List (List Str)
  | [] => []
  | a :: rest =>
    if a.email.isEmpty then write_addressbook_records rest
    else [a.nickname, a.name, a.email, a.fcc, a.biography] ::
      write_addressbook_records rest

/-- A field that the decode step leaves unchanged and that cannot disturb the
line structure: free of tabs and line breaks, with no leading whitespace
(which `decode_if_encoded` would trim) and not of the MIME-encoded shape
(which it would decode). -/
abbrev cleanField (f : Str) : Prop :=
  '\t' ∉ f ∧ '\n' ∉ f ∧ f.dropWhile isRustWhitespace = f ∧
  ¬((str "=?UTF-8?B?").isPrefixOf f = true ∧ (str "?=").isSuffixOf f = true) ∧
  ¬((str "=?UTF-8?Q?").isPrefixOf f = true ∧ (str "?=").isSuffixOf f = true)

/-- All five fields of a record clean in the sense of `cleanField`. -/
abbrev cleanFields (a : APerson) : Prop :=
  cleanField a.nickname ∧ cleanField a.name ∧ cleanField a.email ∧
  cleanField a.fcc ∧ cleanField a.biography

/-- A record that round-trips: non-empty email and clean fields. -/
abbrev cleanAP (a : APerson) : Prop := a.email ≠ [] ∧ cleanFields a

instance : DecidablePred cleanAP := fun _ =>
  inferInstanceAs (Decidable (_ ∧ _))

/-- A `GName` with every sub-field absent. -/
def gnameNone : GName :=
  ⟨none, none, none, none, none, none, none, none, none, none, none, none,
    none, none, none⟩

/-- Sample remote contact whose first name entry has no display name but whose
organization list carries a name (counterexample input for claim C8). -/
def personAcme : Person :=
  { resource_name := none
    names := some [gnameNone]
    nicknames := none
    email_addresses := none
    biographies := none
    organizations := some [⟨some (str "Acme")⟩]
    rest := 0 }

/-- Sample local contact with the interior-digit nickname `B1A`
(counterexample input for claim C5). -/
def apB1A : APerson := ⟨str "B1A", str "X A", str "e", [], str "m"⟩

/-- Sample remote contact agreeing with `apB1A` in display name, nickname and
note (counterexample input for claim C5). -/
def gB1A : Person :=
  { resource_name := none
    names := some [{ gnameNone with display_name := some (str "X A") }]
    nicknames := some [⟨some (str "B1A"), none, none⟩]
    email_addresses := some [⟨some (str "e"), none, none, none, none⟩]
    biographies := some [⟨some (str "m"), none, none⟩]
    organizations := none
    rest := 0 }

/-- Sample remote contact used for the witnesses of claims C5 and C9. -/
def gJD : Person :=
  { resource_name := some (str "people/c1")
    names := some [{ gnameNone with
      display_name := some (str "Jane Doe")
      metadata := some ⟨7⟩
      phonetic_full_name := some (str "jeyn dou") }]
    nicknames := some [⟨some (str "JD"), some ⟨8⟩, some (str "DEFAULT")⟩]
    email_addresses := some
      [⟨some (str "jane@x.com"), some ⟨9⟩, some (str "home"), some (str "Home"), none⟩]
    biographies := some [⟨some (str "VP"), some ⟨10⟩, some (str "TEXT_PLAIN")⟩]
    organizations := some [⟨some (str "X Corp")⟩]
    rest := 42 }

/-- Sample local contact matching `gJD` (witness input for claims C5, C9). -/
def apJD : APerson :=
  ⟨str "JD", str "Jane Doe", str "jane@x.com", [], str "VP"⟩

/-- Sample record list for the write-back witness of claim C10. -/
def sampleWriteList : List APerson :=
  [⟨str "n", str "m", str "e", str "f", str "b"⟩,
   ⟨str "x", str "y", [], [], str "z"⟩]

/-- Sample clean record with a non-empty note (round-trip witness input). -/
def apAB : APerson := ⟨str "aa", str "bb", str "cc", str "dd", str "ee"⟩

/-- Sample clean record with an empty note, whose serialized line therefore
ends in a tab (continuation witness input for claims C1 and C3). -/
def apEmptyNote : APerson := ⟨str "n", str "m", str "e", str "f", []⟩

/-- Claim C8 counterexample: a remote contact whose name list is non-empty but
whose first name entry has no display name, and whose organizations list
carries a name.  The claim predicts the first name entry's display-name field
(empty here); the code returns the organization name `Acme` instead. -/
theorem claim_C8_counterexample :
    get_gcontact_name personAcme = str "Acme" ∧
    first_name_display personAcme ≠ str "Acme" ∧
    personAcme.names ≠ none ∧ personAcme.names ≠ some [] := by decide

/-- Claim C8 (amended): extracting the display name is total and returns the
first name entry's display name whenever that display name is present and
non-empty; otherwise the first organization's name whenever organizations is
non-empty; otherwise the empty string. -/
theorem claim_C8_amended (p : Person) :
    get_gcontact_name p =
      (if first_name_display p = [] then first_org_name p
       else first_name_display p) := by
  unfold get_gcontact_name first_name_display first_org_name
  cases p.names with
  | none =>
    cases p.organizations with
    | none => simp
    | some os => cases os <;> simp
  | some ns =>
    cases ns with
    | nil =>
      cases p.organizations with
      | none => simp
      | some os => cases os <;> simp
    | cons n nt =>
      by_cases hd : n.display_name.getD [] = []
      · cases p.organizations with
        | none => simp [hd]
        | some os => cases os <;> simp [hd]
      · simp [hd]

/-- Claim C9: the `Person` sent to the update call agrees with a clone of the
existing remote contact on every field other than nicknames, names, email
addresses and biographies; within those four replaced fields, the existing
first entry's metadata, type tags, phonetic name fields and honorific
prefix/suffix are preserved; and both the update call and the create call use
exactly the field mask nicknames,names,emailAddresses,biographies. -/
theorem claim_C9 :
    (∀ (person : Person) (ap : APerson),
      (build_updated_person person ap).resource_name = person.resource_name ∧
      (build_updated_person person ap).organizations = person.organizations ∧
      (build_updated_person person ap).rest = person.rest) ∧
    (∀ (person : Person) (ap : APerson),
      (build_updated_person person ap).nicknames = some [⟨some ap.nickname,
        (person.nicknames.bind (fun n => n.head?)).bind (fun nn => nn.metadata),
        (person.nicknames.bind (fun n => n.head?)).bind (fun nn => nn.type_)⟩] ∧
      (build_updated_person person ap).names = some [⟨some ap.name,
        (person.names.bind (fun n => n.head?)).bind (fun nn => nn.display_name_last_first),
        (person.names.bind (fun n => n.head?)).bind (fun nn => nn.family_name),
        (person.names.bind (fun n => n.head?)).bind (fun nn => nn.given_name),
        (person.names.bind (fun n => n.head?)).bind (fun nn => nn.honorific_pre),
        (person.names.bind (fun n => n.head?)).bind (fun nn => nn.honorific_suf),
        (person.names.bind (fun n => n.head?)).bind (fun nn => nn.metadata),
        (person.names.bind (fun n => n.head?)).bind (fun nn => nn.middle_name),
        (person.names.bind (fun n => n.head?)).bind (fun nn => nn.phonetic_family_name),
        (person.names.bind (fun n => n.head?)).bind (fun nn => nn.phonetic_full_name),
        (person.names.bind (fun n => n.head?)).bind (fun nn => nn.phonetic_given_name),
        (person.names.bind (fun n => n.head?)).bind (fun nn => nn.phonetic_honorific_pre),
        (person.names.bind (fun n => n.head?)).bind (fun nn => nn.phonetic_honorific_suf),
        (person.names.bind (fun n => n.head?)).bind (fun nn => nn.phonetic_middle_name),
        (person.names.bind (fun n => n.head?)).bind (fun nn => nn.unstructured_name)⟩] ∧
      (build_updated_person person ap).email_addresses = some [⟨some ap.email,
        (person.email_addresses.bind (fun n => n.head?)).bind (fun nn => nn.metadata),
        (person.email_addresses.bind (fun n => n.head?)).bind (fun nn => nn.type_),
        (person.email_addresses.bind (fun n => n.head?)).bind (fun nn => nn.formatted_type),
        (person.email_addresses.bind (fun n => n.head?)).bind (fun nn => nn.display_name)⟩] ∧
      (build_updated_person person ap).biographies = some [⟨some ap.biography,
        (person.biographies.bind (fun n => n.head?)).bind (fun nn => nn.metadata),
        (person.biographies.bind (fun n => n.head?)).bind (fun nn => nn.content_type)⟩]) ∧
    (∀ (person : Person) (ap : APerson) (rn : Str),
      person.resource_name = some rn →
      update_google_contacts (some person) ap =
        .update rn (build_updated_person person ap) contact_write_field_mask) ∧
    (∀ (person : Person) (ap : APerson),
      person.resource_name = none →
      update_google_contacts (some person) ap =
        .create (build_updated_person person ap) contact_write_field_mask) ∧
    (∀ ap : APerson,
      update_google_contacts none ap =
        .create (build_new_person ap) contact_write_field_mask) ∧
    contact_write_field_mask =
      [str "nicknames", str "names", str "emailAddresses", str "biographies"] := by
  refine ⟨fun person ap => ⟨rfl, rfl, rfl⟩, fun person ap => ⟨rfl, rfl, rfl, rfl⟩,
    ?_, ?_, ?_, by decide⟩
  · intro person ap rn h
    simp only [update_google_contacts]
    rw [show (build_updated_person person ap).resource_name = person.resource_name
      from rfl, h]
  · intro person ap h
    simp only [update_google_contacts]
    rw [show (build_updated_person person ap).resource_name = person.resource_name
      from rfl, h]
  · intro ap
    simp only [update_google_contacts]
    rfl

/-- Claim C9 witness: the dispatch part of `claim_C9` at a concrete existing
contact carrying a resource name. -/
theorem claim_C9_witness :
    update_google_contacts (some gJD) apJD =
      .update (str "people/c1") (build_updated_person gJD apJD)
        contact_write_field_mask :=
  claim_C9.2.2.1 gJD apJD (str "people/c1") (by decide)

/-- Claim C10: in the write-back of the local contact set, every contact with
an empty email is skipped (no record is written for it), so the records
actually written are exactly those of the non-empty-email contacts, in order,
and each written record carries a non-empty email in its third field. -/
theorem claim_C10 (l : List APerson) :
    write_addressbook_records l =
      (l.filter (fun a => !a.email.isEmpty)).map
        (fun a => [a.nickname, a.name, a.email, a.fcc, a.biography]) ∧
    ∀ r ∈ write_addressbook_records l, r.getD 2 [] ≠ [] := by
  constructor
  · induction l with
    | nil => rfl
    | cons a rest ih =>
      by_cases h : a.email.isEmpty <;>
        simp [write_addressbook_records, List.filter_cons, h, ih]
  · intro r hr
    induction l with
    | nil => simp [write_addressbook_records] at hr
    | cons a rest ih =>
      by_cases h : a.email.isEmpty
      · exact ih (by simpa [write_addressbook_records, h] using hr)
      · rw [write_addressbook_records, if_neg h] at hr
        rcases List.mem_cons.mp hr with h1 | h1
        · subst h1
          simpa [List.isEmpty_iff] using h
        · exact ih h1

/-- Claim C10 witness: `claim_C10` at a concrete list containing one contact
with an empty email (which is dropped) and one with a non-empty email. -/
theorem claim_C10_witness :
    write_addressbook_records sampleWriteList =
      (sampleWriteList.filter (fun a => !a.email.isEmpty)).map
        (fun a => [a.nickname, a.name, a.email, a.fcc, a.biography]) ∧
    ([str "n", str "m", str "e", str "f", str "b"] : List Str).getD 2 [] ≠ [] :=
  ⟨(claim_C10 sampleWriteList).1,
    (claim_C10 sampleWriteList).2 [str "n", str "m", str "e", str "f", str "b"]
      (by decide)⟩

/-- `load_addressbook_data` generalized over the starting buffer and the
records accumulated so far (the loop invariant view of the same code);
`load_addressbook_data ls = loadFrom ls [] []` holds by definition. -/
def loadFrom (ls : List Str) (st : Str) (acc : List APerson) :
    Except PErr (List APerson) := do
  let r ← runLines ls st acc
  if r.2 ≠ [] then do
    let p ← convert_line_to_aperson r.2
    pure (r.1 ++ [p])
  else pure r.1

theorem dropWhile_append_of_all {α : Type} (p : α → Bool) :
    ∀ (xs ys : List α), (∀ x ∈ xs, p x = true) →
      List.dropWhile p (xs ++ ys) = List.dropWhile p ys := by
  intro xs ys h
  induction xs with
  | nil => rfl
  | cons x xt ih =>
    rw [List.cons_append, List.dropWhile_cons, if_pos (h x (by simp))]
    exact ih fun a ha => h a (by simp [ha])

theorem dropWhile_eq_self_of_all_not {α : Type} (p : α → Bool) (l : List α)
    (h : ∀ x ∈ l, p x = false) : List.dropWhile p l = l := by
  cases l with
  | nil => rfl
  | cons x xt => rw [List.dropWhile_cons, if_neg (by simp [h x (by simp)])]

theorem split_string_and_number_append (a b : Str)
    (ha : ∀ c ∈ a, c.isDigit = false) (hb : ∀ c ∈ b, c.isDigit = true) :
    (split_string_and_number (a ++ b)).1 = a := by
  induction a with
  | nil =>
    cases b with
    | nil => rfl
    | cons c t =>
      rw [List.nil_append, split_string_and_number,
        if_pos (hb c (by simp))]
  | cons c t ih =>
    rw [List.cons_append, split_string_and_number,
      if_neg (by simp [ha c (by simp)])]
    simpa using ih fun x hx => ha x (by simp [hx])

theorem strip_trailing_append (a b : Str)
    (ha : ∀ c ∈ a, c.isDigit = false) (hb : ∀ c ∈ b, c.isDigit = true) :
    ((a ++ b).reverse.dropWhile (·.isDigit)).reverse = a := by
  rw [List.reverse_append,
    dropWhile_append_of_all _ _ _ (fun x hx => hb x (List.mem_reverse.mp hx)),
    dropWhile_eq_self_of_all_not _ _ (fun x hx => ha x (List.mem_reverse.mp hx)),
    List.reverse_reverse]

/-- Claim C5 counterexample: for the local nickname `B1A` (an interior digit,
no trailing digit suffix), local name `X A` and a matching remote contact, the
specification's trailing-digit stripping leaves `B1A` unchanged, so the claim
predicts the pair is identical (no prompt); the code strips from the first
digit, obtains `B`, fails the comparison and prompts. -/
theorem claim_C5_counterexample :
    adjusted_nickname (str "B1A") (str "X A") (str "G") ≠
      adjusted_nickname_spec (str "B1A") (str "X A") (str "G") ∧
    apB1A.name = get_gcontact_name gB1A ∧
    adjusted_nickname_spec apB1A.nickname apB1A.name (get_gcontact_nickname gB1A) =
      get_gcontact_nickname gB1A ∧
    apB1A.biography = get_gcontact_biography gB1A ∧
    processCommonPair apB1A gB1A .FromGoogle = ⟨true, true, false⟩ := by decide

/-- Claim C5 (amended): the adjusted local nickname is computed by stripping
the local nickname from its first digit onward (its longest digit-free
prefix), then, exactly when the stripped nickname equals the last whitespace
token of the local display name, replacing it with the remote nickname — this
agrees with the claim's trailing-digit-suffix stripping whenever the nickname
is a digit-free base followed by a digit suffix; and whenever the local and
remote display names are equal, the adjusted local nickname equals the remote
nickname, and the notes are equal, the pair is treated as identical: no
prompt, no local mutation and no remote mutation. -/
theorem claim_C5_amended :
    (∀ a b : Str, (∀ c ∈ a, c.isDigit = false) → (∀ c ∈ b, c.isDigit = true) →
      (split_string_and_number (a ++ b)).1 = a ∧
      ((a ++ b).reverse.dropWhile (·.isDigit)).reverse = a) ∧
    (∀ (ap : APerson) (g : Person) (choice : UpdateSource),
      ap.name = get_gcontact_name g →
      adjusted_nickname ap.nickname ap.name (get_gcontact_nickname g) =
        get_gcontact_nickname g →
      ap.biography = get_gcontact_biography g →
      processCommonPair ap g choice = ⟨false, false, false⟩) := by
  constructor
  · intro a b ha hb
    exact ⟨split_string_and_number_append a b ha hb, strip_trailing_append a b ha hb⟩
  · intro ap g choice h1 h2 h3
    simp only [processCommonPair]
    rw [if_pos ⟨h1, h2, h3⟩]

/-- Claim C5 witness: the stripping agreement at `Doe ++ 01` and the
no-prompt short-circuit at a concrete identical pair. -/
theorem claim_C5_witness :
    ((split_string_and_number (str "Doe" ++ str "01")).1 = str "Doe" ∧
      ((str "Doe" ++ str "01").reverse.dropWhile (·.isDigit)).reverse = str "Doe") ∧
    processCommonPair apJD gJD .FromAddressBook = ⟨false, false, false⟩ :=
  ⟨claim_C5_amended.1 (str "Doe") (str "01") (by decide) (by decide),
    claim_C5_amended.2 apJD gJD .FromAddressBook (by decide) (by decide) (by decide)⟩

/-- Claim C7 counterexample: a buffer with a single field (well under five)
whose decode step fails — `!` is not valid Base64 — so the conversion fails
rather than succeeding as the claim asserts for every buffer of at most five
fields. -/
theorem claim_C7_counterexample :
    (splitOnChar '\t' (str "=?UTF-8?B?!?=")).length ≤ 5 ∧
    convert_line_to_aperson (str "=?UTF-8?B?!?=") = .error (.decode .b64) := by decide

/-- Claim C7 (amended): converting a finalized buffer fails with the
"too many fields" error exactly when splitting on tabs yields more than five
fields; with five or fewer fields, whenever each field passes the
decode-if-encoded step the conversion succeeds, assigning the decoded fields
in the order nickname, display name, email, fcc, note; missing trailing
fields default to the empty string (the decode of an empty field is the empty
field). -/
theorem claim_C7_amended :
    (∀ buf : Str, 5 < (splitOnChar '\t' buf).length →
      convert_line_to_aperson buf = .error .tooManyFields) ∧
    (∀ buf : Str, (splitOnChar '\t' buf).length ≤ 5 →
      convert_line_to_aperson buf ≠ .error .tooManyFields) ∧
    (∀ (buf : Str) (n0 n1 n2 n3 n4 : Str),
      (splitOnChar '\t' buf).length ≤ 5 →
      decode_if_encoded ((splitOnChar '\t' buf).getD 0 []) = .ok n0 →
      decode_if_encoded ((splitOnChar '\t' buf).getD 1 []) = .ok n1 →
      decode_if_encoded ((splitOnChar '\t' buf).getD 2 []) = .ok n2 →
      decode_if_encoded ((splitOnChar '\t' buf).getD 3 []) = .ok n3 →
      decode_if_encoded ((splitOnChar '\t' buf).getD 4 []) = .ok n4 →
      convert_line_to_aperson buf = .ok ⟨n0, n1, n2, n3, n4⟩) ∧
    decode_if_encoded [] = .ok [] := by
  refine ⟨?_, ?_, ?_, by decide⟩
  · intro buf h
    simp only [convert_line_to_aperson]
    rw [if_pos (by omega)]
    rfl
  · intro buf h
    simp only [convert_line_to_aperson]
    rw [if_neg (by omega)]
    cases h0 : decode_if_encoded ((splitOnChar '\t' buf).getD 0 []) <;>
      cases h1 : decode_if_encoded ((splitOnChar '\t' buf).getD 1 []) <;>
        cases h2 : decode_if_encoded ((splitOnChar '\t' buf).getD 2 []) <;>
          cases h3 : decode_if_encoded ((splitOnChar '\t' buf).getD 3 []) <;>
            cases h4 : decode_if_encoded ((splitOnChar '\t' buf).getD 4 []) <;>
              simp [Except.mapError, bind, Except.bind, pure, Except.pure]
  · intro buf n0 n1 n2 n3 n4 h h0 h1 h2 h3 h4
    simp only [List.getD_eq_getElem?_getD] at h0 h1 h2 h3 h4
    simp only [convert_line_to_aperson]
    rw [if_neg (by omega)]
    simp [h0, h1, h2, h3, h4, Except.mapError, bind, Except.bind, pure, Except.pure]

/-- Claim C7 witness: `claim_C7_amended` at the concrete three-field buffer
`n TAB m TAB e` — the two missing trailing fields default to empty. -/
theorem claim_C7_witness :
    (splitOnChar '\t' (str "n\tm\te")).length ≤ 5 ∧
    convert_line_to_aperson (str "n\tm\te") =
      .ok ⟨str "n", str "m", str "e", [], []⟩ :=
  ⟨by decide, claim_C7_amended.2.2.1 (str "n\tm\te") (str "n") (str "m") (str "e") [] []
    (by decide) (by decide) (by decide) (by decide) (by decide) (by decide)⟩

/-- Claim C6 counterexample.  Two failures of the claim as stated: (1) on the
11-byte field `=?UTF-8?B?=`, where the encoding marker and the closing `?=`
overlap, the byte slice `[10..len-2]` panics instead of decoding the interior;
(2) the claimed equality for `=?UTF-8?Q?Caf=C3=A9?=` has result `café`, but
the encoded word starts with a capital C, so the decode yields `Café`. -/
theorem claim_C6_counterexample :
    decode_if_encoded (str "=?UTF-8?B?=") = .error .panicked ∧
    decode_if_encoded (str "=?UTF-8?Q?Caf=C3=A9?=") = .ok (str "Café") ∧
    str "Café" ≠ str "café" := by decide

/-- Claim C6 (amended): after trimming leading whitespace, a field of at least
12 bytes that starts with `=?UTF-8?B?` and ends with `?=` has its interior
Base64-decoded and interpreted as UTF-8 (decode failure yields an error); a
field of at least 12 bytes that starts with `=?UTF-8?Q?` and ends with `?=`
has underscores replaced by spaces and is Quoted-Printable-decoded in robust
mode with invalid UTF-8 bytes replaced rather than rejected; any other field
is returned with only its leading whitespace removed.  Concretely, decoding
`=?UTF-8?B?` + base64("café") + `?=` gives `café`, decoding
`=?UTF-8?Q?Caf=C3=A9?=` gives `Café`, and `plain text` is unchanged.  (The
only fields with both marker and suffix but fewer than 12 bytes are the
11-byte overlaps `=?UTF-8?B?=` and `=?UTF-8?Q?=`, on which the slice
panics — see the counterexample.) -/
theorem claim_C6_amended :
    decode_if_encoded (str "=?UTF-8?B?Y2Fmw6k=?=") = .ok (str "café") ∧
    decode_if_encoded (str "=?UTF-8?Q?Caf=C3=A9?=") = .ok (str "Café") ∧
    decode_if_encoded (str "plain text") = .ok (str "plain text") ∧
    (∀ s0 : Str,
      (str "=?UTF-8?B?").isPrefixOf (s0.dropWhile isRustWhitespace) = true →
      (str "?=").isSuffixOf (s0.dropWhile isRustWhitespace) = true →
      12 ≤ byteLen (s0.dropWhile isRustWhitespace) →
      decode_if_encoded s0 =
        (match base64decode (((s0.dropWhile isRustWhitespace).take
            ((s0.dropWhile isRustWhitespace).length - 2)).drop 10) with
         | none => .error .b64
         | some bytes =>
           match utf8decode bytes with
           | none => .error .utf8
           | some t => .ok t)) ∧
    (∀ s0 : Str,
      ¬((str "=?UTF-8?B?").isPrefixOf (s0.dropWhile isRustWhitespace) = true ∧
        (str "?=").isSuffixOf (s0.dropWhile isRustWhitespace) = true) →
      (str "=?UTF-8?Q?").isPrefixOf (s0.dropWhile isRustWhitespace) = true →
      (str "?=").isSuffixOf (s0.dropWhile isRustWhitespace) = true →
      12 ≤ byteLen (s0.dropWhile isRustWhitespace) →
      decode_if_encoded s0 = .ok (utf8Lossy (qpDecodeRobust (utf8Encode
        ((((s0.dropWhile isRustWhitespace).take
          ((s0.dropWhile isRustWhitespace).length - 2)).drop 10).map
          (fun c => if c = '_' then ' ' else c)))))) ∧
    (∀ s0 : Str,
      ¬((str "=?UTF-8?B?").isPrefixOf (s0.dropWhile isRustWhitespace) = true ∧
        (str "?=").isSuffixOf (s0.dropWhile isRustWhitespace) = true) →
      ¬((str "=?UTF-8?Q?").isPrefixOf (s0.dropWhile isRustWhitespace) = true ∧
        (str "?=").isSuffixOf (s0.dropWhile isRustWhitespace) = true) →
      decode_if_encoded s0 = .ok (s0.dropWhile isRustWhitespace)) := by
  refine ⟨by decide, by decide, by decide, ?_, ?_, ?_⟩
  · intro s0 h1 h2 h3
    simp only [decode_if_encoded]
    rw [if_pos ⟨h1, h2⟩, if_neg (by omega)]
  · intro s0 hb h1 h2 h3
    simp only [decode_if_encoded]
    rw [if_neg hb, if_pos ⟨h1, h2⟩, if_neg (by omega)]
  · intro s0 hb hq
    simp only [decode_if_encoded]
    rw [if_neg hb, if_neg hq]

/-- Claim C6 witness: the general branch clauses of `claim_C6_amended` at the
concrete inputs `=?UTF-8?B?QQ==?=` (Base64 branch) and `x y` (pass-through
branch). -/
theorem claim_C6_witness :
    decode_if_encoded (str "=?UTF-8?B?QQ==?=") =
      (match base64decode ((((str "=?UTF-8?B?QQ==?=").dropWhile
          isRustWhitespace).take (((str "=?UTF-8?B?QQ==?=").dropWhile
          isRustWhitespace).length - 2)).drop 10) with
       | none => .error .b64
       | some bytes =>
         match utf8decode bytes with
         | none => .error .utf8
         | some t => .ok t) ∧
    decode_if_encoded (str "x y") =
      .ok ((str "x y").dropWhile isRustWhitespace) :=
  ⟨claim_C6_amended.2.2.2.1 (str "=?UTF-8?B?QQ==?=")
      (by decide) (by decide) (by decide),
    claim_C6_amended.2.2.2.2.2 (str "x y") (by decide) (by decide)⟩

theorem load_eq_loadFrom (ls : List Str) :
    load_addressbook_data ls = loadFrom ls [] [] := rfl

theorem loadFrom_cons (l : Str) (ls : List Str) (st : Str) (acc : List APerson)
    (ps : List APerson) (st' : Str) (h : stepLine st l = .ok (ps, st')) :
    loadFrom (l :: ls) st acc = loadFrom ls st' (acc ++ ps) := by
  simp [loadFrom, runLines, h, bind, Except.bind]

theorem loadFrom_nil_empty (acc : List APerson) :
    loadFrom [] [] acc = .ok acc := by
  simp [loadFrom, runLines, bind, Except.bind, pure, Except.pure]

theorem loadFrom_nil_flush (st : Str) (acc : List APerson) (p : APerson)
    (hst : st ≠ []) (hc : convert_line_to_aperson st = .ok p) :
    loadFrom [] st acc = .ok (acc ++ [p]) := by
  simp [loadFrom, runLines, bind, Except.bind, hst, hc, pure, Except.pure]

theorem convert_nil : convert_line_to_aperson [] = .ok emptyAP := by decide

theorem serializeRecord_ne_nil (r : APerson) : serializeRecord r ≠ [] := by
  simp [serializeRecord]

theorem splitOnChar_ne_nil (c : Char) (l : Str) : splitOnChar c l ≠ [] := by
  cases l with
  | nil => simp [splitOnChar]
  | cons x xs =>
    rw [splitOnChar]
    cases h : splitOnChar c xs with
    | nil => simp
    | cons r rs => by_cases hx : x = c <;> simp [hx]

theorem splitOnChar_no (c : Char) :
    ∀ l : Str, c ∉ l → splitOnChar c l = [l] := by
  intro l
  induction l with
  | nil => intro _; rfl
  | cons x xs ih =>
    intro h
    simp only [List.mem_cons, not_or] at h
    have hxc : ¬x = c := fun hx => h.1 hx.symm
    rw [splitOnChar, ih h.2]
    simp [hxc]

theorem splitOnChar_app (c : Char) :
    ∀ (f rest : Str), c ∉ f →
      splitOnChar c (f ++ c :: rest) = f :: splitOnChar c rest := by
  intro f
  induction f with
  | nil =>
    intro rest _
    rw [List.nil_append, splitOnChar]
    cases h : splitOnChar c rest with
    | nil => exact absurd h (splitOnChar_ne_nil c rest)
    | cons r rs => simp
  | cons x xf ih =>
    intro rest h
    simp only [List.mem_cons, not_or] at h
    have hxc : ¬x = c := fun hx => h.1 hx.symm
    rw [List.cons_append, splitOnChar, ih rest h.2]
    simp [hxc]

theorem decode_clean (f : Str) (h : cleanField f) : decode_if_encoded f = .ok f := by
  obtain ⟨-, -, htrim, hB, hQ⟩ := h
  simp only [decode_if_encoded, htrim]
  rw [if_neg hB, if_neg hQ]

theorem splitTab_serialize (r : APerson) (h : cleanFields r) :
    splitOnChar '\t' (serializeRecord r) =
      [r.nickname, r.name, r.email, r.fcc, r.biography] := by
  obtain ⟨h1, h2, h3, h4, h5⟩ := h
  rw [serializeRecord, splitOnChar_app '\t' _ _ h1.1, splitOnChar_app '\t' _ _ h2.1,
    splitOnChar_app '\t' _ _ h3.1, splitOnChar_app '\t' _ _ h4.1,
    splitOnChar_no '\t' _ h5.1]

theorem convert_serialize (r : APerson) (h : cleanFields r) :
    convert_line_to_aperson (serializeRecord r) = .ok r := by
  have d0 := decode_clean r.nickname h.1
  have d1 := decode_clean r.name h.2.1
  have d2 := decode_clean r.email h.2.2.1
  have d3 := decode_clean r.fcc h.2.2.2.1
  have d4 := decode_clean r.biography h.2.2.2.2
  simp [convert_line_to_aperson, splitTab_serialize r h, d0, d1, d2, d3, d4,
    bind, Except.bind, pure, Except.pure, Except.mapError]

theorem count_serialize (r : APerson) (h : cleanFields r) :
    (serializeRecord r).count '\t' = 4 := by
  obtain ⟨h1, h2, h3, h4, h5⟩ := h
  simp [serializeRecord, List.count_append, List.count_cons,
    List.count_eq_zero.mpr h1.1, List.count_eq_zero.mpr h2.1,
    List.count_eq_zero.mpr h3.1, List.count_eq_zero.mpr h4.1,
    List.count_eq_zero.mpr h5.1]

theorem getLast?_ne (c : Char) :
    ∀ l : Str, c ∉ l → l.getLast? ≠ some c := by
  intro l
  induction l with
  | nil => simp
  | cons x xs ih =>
    intro h
    cases xs with
    | nil =>
      simp only [List.getLast?_singleton, ne_eq, Option.some.injEq]
      intro hx
      simp [hx] at h
    | cons y ys =>
      rw [List.getLast?_cons_cons]
      exact ih (by simp at h; simp [h.2])

theorem getLast?_serialize (r : APerson) (h : cleanFields r) :
    (serializeRecord r).getLast? = some '\t' ↔ r.biography = [] := by
  have hshape : (serializeRecord r).getLast? = ('\t' :: r.biography).getLast? := by
    rw [serializeRecord, List.getLast?_append_cons, ← List.cons_append,
      List.getLast?_append_cons, ← List.cons_append, List.getLast?_append_cons,
      ← List.cons_append, List.getLast?_append_cons]
  rw [hshape]
  constructor
  · intro htab
    by_contra hne
    rw [show ('\t' :: r.biography) = ['\t'] ++ r.biography from rfl,
      List.getLast?_append_of_ne_nil _ hne] at htab
    exact getLast?_ne '\t' r.biography h.2.2.2.2.1 htab
  · intro hb
    rw [hb]
    rfl

theorem length_dropWhile_le {α : Type} (p : α → Bool) :
    ∀ l : List α, (l.dropWhile p).length ≤ l.length := by
  intro l
  induction l with
  | nil => simp
  | cons y ys ih =>
    rw [List.dropWhile_cons]
    by_cases hy : p y = true
    · rw [if_pos hy]
      calc (ys.dropWhile p).length ≤ ys.length := ih
        _ ≤ (y :: ys).length := by simp
    · rw [if_neg hy]

theorem head_not_ws (c : Char) (t : Str)
    (h : (c :: t).dropWhile isRustWhitespace = c :: t) :
    isRustWhitespace c = false := by
  by_contra hc
  rw [List.dropWhile_cons, if_pos (by simpa using hc)] at h
  have hlen := length_dropWhile_le isRustWhitespace t
  rw [h] at hlen
  simp at hlen

theorem not_threeSp_serialize (r : APerson) (h : cleanFields r) :
    ((str "   ").isPrefixOf (serializeRecord r)) = false := by
  have hsp : str "   " = ' ' :: ' ' :: ' ' :: [] := rfl
  cases hn : r.nickname with
  | nil =>
    have : serializeRecord r =
        '\t' :: (r.name ++ '\t' :: (r.email ++ '\t' :: (r.fcc ++ '\t' :: r.biography))) := by
      rw [serializeRecord, hn, List.nil_append]
    rw [this, hsp]
    simp [List.isPrefixOf]
  | cons c t =>
    have hcw : isRustWhitespace c = false := by
      have := h.1.2.2.1
      rw [hn] at this
      exact head_not_ws c t this
    have hcne : (' ' == c) = false := by
      apply beq_eq_false_iff_ne.mpr
      intro hsc
      rw [← hsc] at hcw
      exact absurd hcw (by decide)
    have : serializeRecord r = c :: (t ++ '\t' ::
        (r.name ++ '\t' :: (r.email ++ '\t' :: (r.fcc ++ '\t' :: r.biography)))) := by
      rw [serializeRecord, hn, List.cons_append]
    rw [this, hsp]
    simp [List.isPrefixOf, hcne]

theorem stepLine_cont (st line : Str) (h1 : line.getLast? = some '\t')
    (h2 : st.count '\t' < 4) : stepLine st line = .ok ([], st ++ line) := by
  simp only [stepLine]
  rw [if_pos ⟨h1, h2⟩]

theorem stepLine_flush (st line : Str) (p q : APerson)
    (hcond : ¬(line.getLast? = some '\t' ∧ st.count '\t' < 4))
    (h3 : ((str "   ").isPrefixOf line) = false)
    (hp : convert_line_to_aperson st = .ok p)
    (hq : convert_line_to_aperson line = .ok q) :
    stepLine st line = .ok ([p, q], []) := by
  simp only [stepLine]
  rw [if_neg hcond, if_neg (by simp [h3])]
  simp [hp, hq, bind, Except.bind, pure, Except.pure]

theorem load_serialize_nilA (acc : List APerson) :
    loadFrom (serialize []) [] acc = .ok (acc ++ parsedWithEmpties none []) := by
  simp [serialize, loadFrom_nil_empty, parsedWithEmpties]

theorem load_serialize_nilB (r : APerson) (hr : cleanFields r)
    (acc : List APerson) :
    loadFrom (serialize []) (serializeRecord r) acc =
      .ok (acc ++ parsedWithEmpties (some r) []) := by
  rw [show serialize [] = [] from rfl,
    loadFrom_nil_flush _ _ r (serializeRecord_ne_nil r) (convert_serialize r hr)]
  simp [parsedWithEmpties]

theorem load_serialize_aux :
    ∀ (n : Nat) (rs : List APerson), rs.length ≤ n →
      (∀ a ∈ rs, cleanFields a) →
      ((∀ acc : List APerson,
         loadFrom (serialize rs) [] acc = .ok (acc ++ parsedWithEmpties none rs)) ∧
       (∀ r : APerson, cleanFields r → r.biography = [] →
         ∀ acc : List APerson,
           loadFrom (serialize rs) (serializeRecord r) acc =
             .ok (acc ++ parsedWithEmpties (some r) rs))) := by
  intro n
  induction n with
  | zero =>
    intro rs hlen _
    have hnil : rs = [] := List.length_eq_zero.mp (Nat.le_zero.mp hlen)
    subst hnil
    exact ⟨load_serialize_nilA, fun r hr _ acc => load_serialize_nilB r hr acc⟩
  | succ n ih =>
    intro rs hlen hcl
    cases rs with
    | nil =>
      exact ⟨load_serialize_nilA, fun r hr _ acc => load_serialize_nilB r hr acc⟩
    | cons r rest =>
      have hr := hcl r (by simp)
      have hrest : ∀ a ∈ rest, cleanFields a := fun a ha => hcl a (by simp [ha])
      have hlen' : rest.length ≤ n := by simp at hlen; omega
      have IH := ih rest hlen' hrest
      constructor
      · intro acc
        by_cases hb : r.biography = []
        · have hstep := stepLine_cont [] (serializeRecord r)
            ((getLast?_serialize r hr).mpr hb) (by simp)
          rw [show serialize (r :: rest) = serializeRecord r :: serialize rest from rfl,
            loadFrom_cons _ _ _ _ _ _ hstep, List.nil_append, List.append_nil,
            IH.2 r hr hb acc]
          simp [parsedWithEmpties, hb]
        · have hstep := stepLine_flush [] (serializeRecord r) emptyAP r
            (fun hcc => hb ((getLast?_serialize r hr).mp hcc.1))
            (not_threeSp_serialize r hr) convert_nil (convert_serialize r hr)
          rw [show serialize (r :: rest) = serializeRecord r :: serialize rest from rfl,
            loadFrom_cons _ _ _ _ _ _ hstep, IH.1 (acc ++ [emptyAP, r])]
          simp [parsedWithEmpties, hb]
      · intro r0 hr0 hb0 acc
        have hstep := stepLine_flush (serializeRecord r0) (serializeRecord r) r0 r
          (fun hcc => by rw [count_serialize r0 hr0] at hcc; omega)
          (not_threeSp_serialize r hr) (convert_serialize r0 hr0)
          (convert_serialize r hr)
        rw [show serialize (r :: rest) = serializeRecord r :: serialize rest from rfl,
          loadFrom_cons _ _ _ _ _ _ hstep, IH.1 (acc ++ [r0, r])]
        simp [parsedWithEmpties]

theorem filter_parsedWithEmpties :
    ∀ rs : List APerson, (∀ a ∈ rs, a.email ≠ []) →
      ((parsedWithEmpties none rs).filter (fun a => !a.email.isEmpty) = rs ∧
       ∀ r : APerson, r.email ≠ [] →
         (parsedWithEmpties (some r) rs).filter (fun a => !a.email.isEmpty) =
           r :: rs) := by
  intro rs
  induction rs with
  | nil =>
    intro _
    refine ⟨rfl, fun r hr => ?_⟩
    simp [parsedWithEmpties, List.filter_cons, hr]
  | cons r rest ih =>
    intro h
    have hr : r.email ≠ [] := h r (by simp)
    have hrest : ∀ a ∈ rest, a.email ≠ [] := fun a ha => h a (by simp [ha])
    have IH := ih hrest
    constructor
    · by_cases hb : r.biography = []
      · simpa [parsedWithEmpties, hb] using IH.2 r hr
      · simp [parsedWithEmpties, hb, List.filter_cons, emptyAP, hr, IH.1]
    · intro r0 hr0
      simp [parsedWithEmpties, List.filter_cons, hr0, hr, IH.1]

/-- Claim C1 counterexample: the single clean record `(a,b,c,d,e)` (non-empty
email, no tabs or newlines in any field) serializes to one line, but parsing
that line yields two records — an all-empty record precedes the real one — so
serialize-then-parse does not return the original sequence. -/
theorem claim_C1_counterexample :
    load_addressbook_data
        (serialize [⟨str "a", str "b", str "c", str "d", str "e"⟩]) =
      .ok [emptyAP, ⟨str "a", str "b", str "c", str "d", str "e"⟩] ∧
    load_addressbook_data
        (serialize [⟨str "a", str "b", str "c", str "d", str "e"⟩]) ≠
      .ok [⟨str "a", str "b", str "c", str "d", str "e"⟩] := by decide

/-- Claim C1 (amended): for every sequence of records with non-empty emails
whose five fields contain no tab or newline, no leading whitespace and are not
MIME-encoded-shaped (so the decode step returns them verbatim), serializing
and then parsing with `load_addressbook_data` yields exactly
`parsedWithEmpties none rs`: the original records in order, with one spurious
all-empty record inserted at each point where a line is processed while the
accumulated buffer is empty and is not absorbed as a tab continuation — in
particular, no all-empty record is inserted before a record whose line
flushes a buffered empty-note line.  Discarding the empty-email records
recovers the original sequence exactly, element by element and in order. -/
theorem claim_C1_amended (rs : List APerson) (h : ∀ a ∈ rs, cleanAP a) :
    load_addressbook_data (serialize rs) = .ok (parsedWithEmpties none rs) ∧
    (load_addressbook_data (serialize rs)).map
      (fun out => out.filter (fun a => !a.email.isEmpty)) = .ok rs := by
  have hload : load_addressbook_data (serialize rs) =
      .ok (parsedWithEmpties none rs) := by
    rw [load_eq_loadFrom,
      (load_serialize_aux rs.length rs le_rfl (fun a ha => (h a ha).2)).1 [],
      List.nil_append]
  refine ⟨hload, ?_⟩
  rw [hload]
  simp only [Except.map]
  exact congrArg Except.ok ((filter_parsedWithEmpties rs (fun a ha => (h a ha).1)).1)

/-- Claim C1 witness: `claim_C1_amended` on a concrete three-record sequence:
a record with a non-empty note (preceded by an all-empty record), a record
whose empty note makes its line end in a tab (buffered, no all-empty record),
and a following record that flushes the buffer (hence also not preceded by an
all-empty record). -/
theorem claim_C1_witness :
    (load_addressbook_data (serialize [apAB, apEmptyNote, apJD]) =
      .ok (parsedWithEmpties none [apAB, apEmptyNote, apJD])) ∧
    (load_addressbook_data (serialize [apAB, apEmptyNote, apJD])).map
      (fun out => out.filter (fun a => !a.email.isEmpty)) =
      .ok [apAB, apEmptyNote, apJD] :=
  claim_C1_amended [apAB, apEmptyNote, apJD] (by decide)

theorem loadFrom_doubled :
    ∀ ls : List Str,
      (∀ l ∈ ls, ¬(l.getLast? = some '\t') ∧
        ((str "   ").isPrefixOf l) = false ∧
        convert_line_to_aperson l = .ok (forceConvert l)) →
      ∀ acc : List APerson,
        loadFrom ls [] acc = .ok (acc ++ doubledRecords ls) := by
  intro ls
  induction ls with
  | nil =>
    intro _ acc
    simp [loadFrom_nil_empty, doubledRecords]
  | cons l ls ih =>
    intro h acc
    obtain ⟨h1, h2, h3⟩ := h l (by simp)
    have hstep := stepLine_flush [] l emptyAP (forceConvert l)
      (fun hcc => h1 hcc.1) h2 convert_nil h3
    rw [loadFrom_cons _ _ _ _ _ _ hstep,
      ih (fun a ha => h a (by simp [ha])) (acc ++ [emptyAP, forceConvert l])]
    simp [doubledRecords]

/-- Claim C2 counterexample: the single line `a TAB b TAB c TAB d TAB e TAB f`
has no trailing tab and no three-space prefix, yet parsing it does not return
2 records — its six fields make `convert_line_to_aperson` fail with the
"too many fields" error, so the whole parse fails. -/
theorem claim_C2_counterexample :
    load_addressbook_data [str "a\tb\tc\td\te\tf"] =
      .error .tooManyFields := by decide

/-- Claim C2 (amended): in `load_addressbook_data`, a line that is not a tab
continuation and has no three-space prefix is processed by first converting
the accumulated buffer — even when that buffer is empty, which yields an extra
all-empty record — and then converting the buffer holding the line itself.
Hence for every file of `n` physical lines, each free of a trailing tab and of
a three-space prefix and each individually convertible (at most five
tab-separated fields, all passing the decode step), parsing returns exactly
`2·n` records, with an all-empty record preceding each line's record. -/
theorem claim_C2_amended (ls : List Str)
    (h : ∀ l ∈ ls, ¬(l.getLast? = some '\t') ∧
      ((str "   ").isPrefixOf l) = false ∧
      convert_line_to_aperson l = .ok (forceConvert l)) :
    load_addressbook_data ls = .ok (doubledRecords ls) ∧
    (doubledRecords ls).length = 2 * ls.length ∧
    ∀ i < ls.length, (doubledRecords ls)[2 * i]? = some emptyAP := by
  refine ⟨?_, ?_, ?_⟩
  · rw [load_eq_loadFrom, loadFrom_doubled ls h []]
    rfl
  · clear h
    induction ls with
    | nil => rfl
    | cons l ls ih => simp [doubledRecords, ih]; omega
  · clear h
    induction ls with
    | nil => simp
    | cons l ls ih =>
      intro i hi
      cases i with
      | zero => rfl
      | succ j =>
        have : 2 * (j + 1) = 2 * j + 2 := by omega
        rw [this]
        simpa [doubledRecords] using ih j (by simp at hi; omega)

/-- Claim C2 witness: `claim_C2_amended` on a concrete two-line file; both
lines are free of trailing tabs and three-space prefixes, and parsing returns
4 records with the all-empty record at the even positions. -/
theorem claim_C2_witness :
    load_addressbook_data [str "a\tb\tc", str "x"] =
      .ok (doubledRecords [str "a\tb\tc", str "x"]) ∧
    (doubledRecords [str "a\tb\tc", str "x"]).length =
      2 * ([str "a\tb\tc", str "x"] : List Str).length ∧
    ∀ i < ([str "a\tb\tc", str "x"] : List Str).length,
      (doubledRecords [str "a\tb\tc", str "x"])[2 * i]? = some emptyAP :=
  claim_C2_amended [str "a\tb\tc", str "x"] (by decide)

/-- Claim C3: a physical line ending in a tab while the accumulated buffer
holds fewer than 4 tabs is appended to the buffer as a continuation, emitting
no record; consequently a clean record whose note field is empty — its single
serialized line therefore ends in a trailing tab — parses to exactly one
record, not two. -/
theorem claim_C3 :
    (∀ st line : Str, line.getLast? = some '\t' → st.count '\t' < 4 →
      stepLine st line = .ok ([], st ++ line)) ∧
    (∀ r : APerson, cleanFields r → r.biography = [] →
      load_addressbook_data [serializeRecord r] = .ok [r]) := by
  constructor
  · exact stepLine_cont
  · intro r hr hb
    have hstep := stepLine_cont [] (serializeRecord r)
      ((getLast?_serialize r hr).mpr hb) (by simp)
    rw [load_eq_loadFrom, loadFrom_cons _ _ _ _ _ _ hstep, List.nil_append,
      loadFrom_nil_flush _ _ r (serializeRecord_ne_nil r) (convert_serialize r hr)]
    rfl

/-- Claim C3 witness: `claim_C3` at the concrete buffer `x` with line `y TAB`,
and at the concrete record `(n,m,e,f,"")`, whose one-line serialization ends
in a tab and parses to exactly that one record. -/
theorem claim_C3_witness :
    stepLine (str "x") (str "y\t") = .ok ([], str "x" ++ str "y\t") ∧
    load_addressbook_data [serializeRecord apEmptyNote] = .ok [apEmptyNote] :=
  ⟨claim_C3.1 (str "x") (str "y\t") (by decide) (by decide),
    claim_C3.2 apEmptyNote (by decide) (by decide)⟩

theorem natReprAux_fuel :
    ∀ (f1 f2 n : Nat), n < f1 → n < f2 → natReprAux f1 n = natReprAux f2 n := by
  intro f1
  induction f1 with
  | zero => intro f2 n h1 _; omega
  | succ g ih =>
    intro f2 n h1 h2
    cases f2 with
    | zero => omega
    | succ g2 =>
      rw [natReprAux, natReprAux]
      by_cases hn : n < 10
      · rw [if_pos hn, if_pos hn]
      · have hdiv : n / 10 < n := Nat.div_lt_self (by omega) (by omega)
        rw [if_neg hn, if_neg hn, ih g2 (n / 10) (by omega) (by omega)]

theorem natRepr_lt10 (n : Nat) (h : n < 10) : natRepr n = [digitChar n] := by
  rw [natRepr, natReprAux, if_pos h]

theorem natRepr_ge10 (n : Nat) (h : 10 ≤ n) :
    natRepr n = natRepr (n / 10) ++ [digitChar (n % 10)] := by
  have hdiv : n / 10 < n := Nat.div_lt_self (by omega) (by omega)
  rw [natRepr, natReprAux, if_neg (by omega)]
  rw [natReprAux_fuel n (n / 10 + 1) (n / 10) (by omega) (by omega)]
  rfl

theorem digitChar_inj :
    ∀ m n : Nat, m < 10 → n < 10 → digitChar m = digitChar n → m = n := by
  intro m n hm hn h
  interval_cases m <;> interval_cases n <;>
    first
    | rfl
    | exact absurd h (by decide)

theorem natRepr_ne_nil : ∀ n : Nat, natRepr n ≠ [] := by
  intro n
  induction n using Nat.strong_induction_on with
  | _ n _ =>
    by_cases hn : n < 10
    · rw [natRepr_lt10 n hn]; simp
    · rw [natRepr_ge10 n (by omega)]; simp

theorem natRepr_head :
    ∀ n : Nat, 1 ≤ n → ∀ (c : Char) (l : Str), natRepr n = c :: l → c ≠ '0' := by
  intro n
  induction n using Nat.strong_induction_on with
  | _ n ih =>
    intro hn c l heq h0
    subst h0
    by_cases h10 : n < 10
    · rw [natRepr_lt10 n h10] at heq
      injection heq with h1 _
      have : n = 0 := digitChar_inj n 0 h10 (by omega) (by rw [h1]; rfl)
      omega
    · rw [natRepr_ge10 n (by omega)] at heq
      cases hrec : natRepr (n / 10) with
      | nil => exact natRepr_ne_nil _ hrec
      | cons c' l' =>
        rw [hrec, List.cons_append] at heq
        injection heq with h1 _
        have hdiv : n / 10 < n := Nat.div_lt_self (by omega) (by omega)
        have hge : 1 ≤ n / 10 := (Nat.one_le_div_iff (by omega)).mpr (by omega)
        exact ih (n / 10) hdiv hge c' l' hrec h1

theorem natRepr_inj : ∀ m n : Nat, natRepr m = natRepr n → m = n := by
  intro m
  induction m using Nat.strong_induction_on with
  | _ m ih =>
    intro n heq
    by_cases hm : m < 10 <;> by_cases hn : n < 10
    · rw [natRepr_lt10 m hm, natRepr_lt10 n hn] at heq
      injection heq with h1 _
      exact digitChar_inj m n hm hn h1
    · rw [natRepr_lt10 m hm, natRepr_ge10 n (by omega)] at heq
      exfalso
      have := congrArg List.length heq
      cases hrec : natRepr (n / 10) with
      | nil => exact natRepr_ne_nil _ hrec
      | cons c' l' => rw [hrec] at this; simp at this
    · rw [natRepr_ge10 m (by omega), natRepr_lt10 n hn] at heq
      exfalso
      have := congrArg List.length heq
      cases hrec : natRepr (m / 10) with
      | nil => exact natRepr_ne_nil _ hrec
      | cons c' l' => rw [hrec] at this; simp at this
    · rw [natRepr_ge10 m (by omega), natRepr_ge10 n (by omega)] at heq
      obtain ⟨hq, hr⟩ := List.append_inj' heq (by rfl)
      have hqd : m / 10 = n / 10 :=
        ih (m / 10) (Nat.div_lt_self (by omega) (by omega)) (n / 10) hq
      injection hr with hr1 _
      have hrd : m % 10 = n % 10 :=
        digitChar_inj _ _ (Nat.mod_lt _ (by omega)) (Nat.mod_lt _ (by omega)) hr1
      have h1 := Nat.div_add_mod m 10
      have h2 := Nat.div_add_mod n 10
      omega

theorem pad2_inj : ∀ m n : Nat, pad2 m = pad2 n → m = n := by
  intro m n heq
  by_cases hm : m < 10 <;> by_cases hn : n < 10
  · rw [pad2, pad2, if_pos hm, if_pos hn] at heq
    injection heq with _ h2
    exact natRepr_inj m n h2
  · exfalso
    rw [pad2, pad2, if_pos hm, if_neg hn, natRepr_ge10 n (by omega)] at heq
    cases hrec : natRepr (n / 10) with
    | nil => exact natRepr_ne_nil _ hrec
    | cons c' l' =>
      rw [hrec, List.cons_append] at heq
      injection heq with h1 _
      exact natRepr_head (n / 10) ((Nat.one_le_div_iff (by omega)).mpr (by omega))
        c' l' hrec h1.symm
  · exfalso
    rw [pad2, pad2, if_neg hm, if_pos hn, natRepr_ge10 m (by omega)] at heq
    cases hrec : natRepr (m / 10) with
    | nil => exact natRepr_ne_nil _ hrec
    | cons c' l' =>
      rw [hrec, List.cons_append] at heq
      injection heq with h1 _
      exact natRepr_head (m / 10) ((Nat.one_le_div_iff (by omega)).mpr (by omega))
        c' l' hrec h1
  · rw [pad2, pad2, if_neg hm, if_neg hn] at heq
    exact natRepr_inj m n heq

theorem pickNick_spec (base : Str) (pool : List Str) :
    ∀ (fuel counter : Nat), counter < 4294967296 →
      (∃ i < fuel, base ++ pad2 ((counter + 1 + i) % 4294967296) ∉ pool) →
      pickNick base pool fuel counter ∉ pool := by
  intro fuel
  induction fuel with
  | zero =>
    rintro counter _ ⟨i, hi, _⟩
    omega
  | succ g ih =>
    rintro counter hctr ⟨i, hi, hmem⟩
    simp only [pickNick]
    by_cases hc : (base ++ pad2 ((counter + 1) % 4294967296)) ∈ pool
    · rw [if_pos hc]
      apply ih ((counter + 1) % 4294967296) (Nat.mod_lt _ (by omega))
      cases i with
      | zero => exact absurd hc hmem
      | succ j =>
        refine ⟨j, by omega, ?_⟩
        have hrot : ((counter + 1) % 4294967296 + 1 + j) % 4294967296 =
            (counter + 1 + (j + 1)) % 4294967296 := by
          rw [Nat.add_assoc, Nat.mod_add_mod]
          congr 1
          omega
        rw [hrot]
        exact hmem
    · rw [if_neg hc]
      exact hc

theorem pickNick_fresh (base : Str) (pool : List Str) (counter : Nat)
    (hctr : counter < 4294967296) (hlen : pool.length < 4294967296) :
    pickNick base pool (pool.length + 1) counter ∉ pool := by
  apply pickNick_spec base pool _ counter hctr
  by_contra hall
  push_neg at hall
  have hnd : ((List.range (pool.length + 1)).map
      (fun i => base ++ pad2 ((counter + 1 + i) % 4294967296))).Nodup := by
    refine (List.nodup_range _).map_on ?_
    intro a ha b hb hab
    rw [List.mem_range] at ha hb
    have := pad2_inj _ _ (List.append_cancel_left hab)
    omega
  have hsub : ∀ x ∈ (List.range (pool.length + 1)).map
      (fun i => base ++ pad2 ((counter + 1 + i) % 4294967296)), x ∈ pool := by
    intro x hx
    simp only [List.mem_map, List.mem_range] at hx
    obtain ⟨i, hi, rfl⟩ := hx
    exact hall i hi
  have h1 : ((List.range (pool.length + 1)).map
      (fun i => base ++ pad2 ((counter + 1 + i) % 4294967296))).toFinset.card =
      pool.length + 1 := by
    rw [List.toFinset_card_of_nodup hnd]
    simp
  have h2 : ((List.range (pool.length + 1)).map
      (fun i => base ++ pad2 ((counter + 1 + i) % 4294967296))).toFinset ⊆
      pool.toFinset := by
    intro x hx
    exact List.mem_toFinset.mpr (hsub x (List.mem_toFinset.mp hx))
  have h3 := Finset.card_le_card h2
  have h4 := pool.toFinset_card_le
  omega

theorem doe_mem (k j : Nat) :
    (str "Doe" ++ pad2 j) ∈
        (List.range k).map (fun i => str "Doe" ++ pad2 (i + 1)) ↔
      1 ≤ j ∧ j ≤ k := by
  constructor
  · intro hmem
    simp only [List.mem_map, List.mem_range] at hmem
    obtain ⟨i, hi, he⟩ := hmem
    have := pad2_inj _ _ (List.append_cancel_left he)
    omega
  · rintro ⟨h1, h2⟩
    simp only [List.mem_map, List.mem_range]
    exact ⟨j - 1, by omega, by rw [show j - 1 + 1 = j from by omega]⟩

theorem pickNick_doe (k : Nat) (hk : k < 4294967296) :
    ∀ fuel counter, 1 ≤ counter → counter ≤ k → k - counter < fuel →
      pickNick (str "Doe")
          ((List.range k).map (fun i => str "Doe" ++ pad2 (i + 1))) fuel counter =
        str "Doe" ++ pad2 ((k + 1) % 4294967296) := by
  intro fuel
  induction fuel with
  | zero => intro counter _ _ h3; omega
  | succ g ih =>
    intro counter h1 h2 h3
    simp only [pickNick]
    by_cases hc : counter = k
    · subst hc
      rw [if_neg (fun hmem => by
        have := (doe_mem counter ((counter + 1) % 4294967296)).mp hmem
        omega)]
    · have hmod : (counter + 1) % 4294967296 = counter + 1 :=
        Nat.mod_eq_of_lt (by omega)
      rw [hmod, if_pos ((doe_mem k (counter + 1)).mpr ⟨by omega, by omega⟩)]
      exact ih (counter + 1) (by omega) (by omega) (by omega)

theorem gen_step1 (N : Nat) (hN : 1 < N) :
    generate_nickname (str "Jane Doe") N [] =
      (str "Doe" ++ pad2 1, [str "Doe" ++ pad2 1]) := by
  simp only [generate_nickname]
  rw [if_pos hN]
  decide

theorem gen_step_cons (N : Nat) (hN : 1 < N) (t : List Str) :
    generate_nickname (str "Jane Doe") N ((str "Doe" ++ pad2 1) :: t) =
      (pickNick (str "Doe") ((str "Doe" ++ pad2 1) :: t)
          (((str "Doe" ++ pad2 1) :: t).length + 1) 1,
        ((str "Doe" ++ pad2 1) :: t) ++
          [pickNick (str "Doe") ((str "Doe" ++ pad2 1) :: t)
            (((str "Doe" ++ pad2 1) :: t).length + 1) 1]) := by
  simp only [generate_nickname]
  rw [if_pos hN]
  have hsplit : split_string_and_number (str "Doe" ++ pad2 1) = (str "Doe", 1) := by
    decide
  rw [hsplit]

theorem range_map_head (k' : Nat) :
    (List.range (k' + 1)).map (fun i => str "Doe" ++ pad2 (i + 1)) =
      (str "Doe" ++ pad2 1) ::
        ((List.range k').map (fun i => str "Doe" ++ pad2 (i + 1 + 1))) := by
  rw [List.range_succ_eq_map, List.map_cons, List.map_map]
  rfl

theorem genN_succ (name : Str) (count k : Nat) :
    genN name count (k + 1) =
      ((genN name count k).1 ++
          [(generate_nickname name count (genN name count k).2).1],
        (generate_nickname name count (genN name count k).2).2) := rfl

theorem genN_doe (N : Nat) (hN : 1 < N) :
    ∀ k : Nat, k < 4294967296 →
      genN (str "Jane Doe") N k =
        ((List.range k).map (fun i => str "Doe" ++ pad2 (i + 1)),
          (List.range k).map (fun i => str "Doe" ++ pad2 (i + 1))) := by
  intro k
  induction k with
  | zero => intro _; rfl
  | succ k ih =>
    intro hk
    rw [genN, ih (by omega)]
    cases k with
    | zero =>
      simp only [List.range_zero, List.map_nil]
      rw [gen_step1 N hN]
      simp [List.range_succ]
    | succ k' =>
      rw [range_map_head k', gen_step_cons N hN, ← range_map_head k']
      have hlen : ((List.range (k' + 1)).map
          (fun i => str "Doe" ++ pad2 (i + 1))).length = k' + 1 := by simp
      rw [hlen,
        pickNick_doe (k' + 1) (by omega) (k' + 1 + 1) 1 (by omega) (by omega)
          (by omega),
        Nat.mod_eq_of_lt (show k' + 1 + 1 < 4294967296 by omega)]
      simp [List.range_succ]

/-- Claim C4 counterexample: the claim's universal `N > 1` reaches
`N = 2^32`, where the Rust `u32` counter overflows.  The first `2^32 - 1`
calls return `Doe` + pad2(1 .. 2^32-1) as claimed, but the `2^32`-th call
wraps `counter + 1` to 0 and returns `Doe00` (`Doe` ++ pad2 0) — a debug
build panics at the same addition — so the `N` results are not
`Doe` + pad2(1..N). -/
theorem claim_C4_counterexample :
    1 < 4294967296 ∧
    (genN (str "Jane Doe") 4294967296 4294967296).1 ≠
      (List.range 4294967296).map (fun i => str "Doe" ++ pad2 (i + 1)) := by
  constructor
  · norm_num
  · have hres : (genN (str "Jane Doe") 4294967296 4294967296).1 =
        ((List.range 4294967295).map (fun i => str "Doe" ++ pad2 (i + 1))) ++
          [str "Doe" ++ pad2 0] := by
      rw [show (4294967296 : Nat) = 4294967295 + 1 from by norm_num, genN_succ,
        genN_doe (4294967295 + 1) (by norm_num) 4294967295 (by norm_num)]
      rw [show (4294967295 : Nat) = 4294967294 + 1 from by norm_num,
        range_map_head 4294967294, gen_step_cons (4294967294 + 1 + 1) (by norm_num),
        ← range_map_head 4294967294]
      have hlen : ((List.range (4294967294 + 1)).map
          (fun i => str "Doe" ++ pad2 (i + 1))).length = 4294967294 + 1 := by simp
      rw [hlen,
        pickNick_doe (4294967294 + 1) (by norm_num) (4294967294 + 1 + 1) 1
          (by norm_num) (by norm_num) (by omega),
        show (4294967294 + 1 + 1) % 4294967296 = 0 from by norm_num]
    have hsplit : ((List.range 4294967296).map
        (fun i => str "Doe" ++ pad2 (i + 1)) : List Str) =
        (List.range 4294967295).map (fun i => str "Doe" ++ pad2 (i + 1)) ++
          [str "Doe" ++ pad2 (4294967295 + 1)] := by
      rw [show (4294967296 : Nat) = 4294967295 + 1 from by norm_num,
        List.range_succ, List.map_append, List.map_cons, List.map_nil]
    intro heq
    rw [hres, hsplit] at heq
    have hlast := List.append_cancel_left heq
    injection hlast with h1 _
    have := pad2_inj _ _ (List.append_cancel_left h1)
    omega

/-- Claim C4 (amended): for every `N` with `1 < N < 2^32` — the full range in
which the `u32` counter never overflows — calling `generate_nickname` `N`
times for the display name "Jane Doe" with `email_count = N` and an initially
empty pool returns the `N` pairwise-distinct nicknames `Doe` + zero-padded
two-digit counter (`Doe01`, `Doe02`, …); at `N = 2^32` the counter wraps and
the last call returns `Doe00` instead (see the counterexample).  One call
with `email_count = 1` and an empty pool returns exactly `Doe`; and a call
with the pool already containing `Doe01` and `email_count = 2` returns
`Doe02`, not `Doe01`. -/
theorem claim_C4 :
    (∀ N : Nat, 1 < N → N < 4294967296 →
      (genN (str "Jane Doe") N N).1 =
        (List.range N).map (fun i => str "Doe" ++ pad2 (i + 1)) ∧
      ((genN (str "Jane Doe") N N).1).Nodup) ∧
    (generate_nickname (str "Jane Doe") 1 []).1 = str "Doe" ∧
    (generate_nickname (str "Jane Doe") 2 [str "Doe01"]).1 = str "Doe02" := by
  refine ⟨?_, by decide, by decide⟩
  intro N hN hN32
  rw [genN_doe N hN N hN32]
  refine ⟨rfl, ?_⟩
  apply (List.nodup_range N).map
  intro a b hab
  have := pad2_inj _ _ (List.append_cancel_left hab)
  omega

/-- Claim C4 witness: `claim_C4` at `N = 3` — three calls return
`[Doe01, Doe02, Doe03]`, pairwise distinct. -/
theorem claim_C4_witness :
    (1 < 3 ∧ 3 < 4294967296) ∧
    ((genN (str "Jane Doe") 3 3).1 =
        (List.range 3).map (fun i => str "Doe" ++ pad2 (i + 1)) ∧
      ((genN (str "Jane Doe") 3 3).1).Nodup) :=
  ⟨⟨by decide, by norm_num⟩, claim_C4.1 3 (by decide) (by norm_num)⟩
